import Mathlib

/-!
Verification of the rport server core against its specification.

Each Go function named in a claim is shallowly embedded as an executable
Lean definition over explicit state; time is passed as an explicit `Nat`
parameter, Go maps become association lists, and the random-element `Pop`
of `mapset` becomes an arbitrary picker function constrained by a
hypothesis.  Theorems at the end of the file settle the claims.
-/

set_option maxHeartbeats 1000000

namespace Security

/-- State of one visitor: counter of consecutive bad attempts and the
optional ban-until stamp (embeds `visitor` of share/security/banlist.go). -/
structure Visitor where
  badAttempts : Nat
  banTime : Option Nat
deriving DecidableEq, Repr

/-- Association-list lookup standing for the Go map read `l.visitors[key]`. -/
def getV : List (String × Visitor) → String → Option Visitor
  | [], _ => none
  | (k', v) :: t, k => if k' = k then some v else getV t k

/-- Association-list update standing for the Go map write `l.visitors[key] = v`. -/
def setV : List (String × Visitor) → String → Visitor → List (String × Visitor)
  | [], k, v => [(k, v)]
  | (k', v') :: t, k, v => if k' = k then (k, v) :: t else (k', v') :: setV t k v

/-- Embeds `MaxBadAttemptsBanList` of share/security/banlist.go
(the mutex and logger carry no data relevant to the claims). -/
structure MaxBadAttemptsBanList where
  banDuration : Nat
  maxBadAttempts : Nat
  visitors : List (String × Visitor)
deriving DecidableEq, Repr

/-- Embeds `NewMaxBadAttemptsBanList`. -/
def NewMaxBadAttemptsBanList (maxBadAttempts : Nat) (banDuration : Nat) :
    MaxBadAttemptsBanList :=
  { banDuration := banDuration, maxBadAttempts := maxBadAttempts, visitors := [] }

/-- Embeds `AddBadAttempt`: increment the counter; when it reaches the
threshold, record `now + banDuration` as the ban stamp and reset the counter.
`now` stands for the `time.Now()` call. -/
def AddBadAttempt (l : MaxBadAttemptsBanList) (visitorKey : String) (now : Nat) :
    MaxBadAttemptsBanList :=
  let v := match getV l.visitors visitorKey with
    | some v => v
    | none => { badAttempts := 0, banTime := none }
  let v1 : Visitor := { v with badAttempts := v.badAttempts + 1 }
  let v2 : Visitor :=
    if v1.badAttempts = l.maxBadAttempts then
      { badAttempts := 0, banTime := some (now + l.banDuration) }
    else v1
  { l with visitors := setV l.visitors visitorKey v2 }

/-- Embeds `AddSuccessAttempt`: reset the counter and clear the ban stamp
when the visitor exists. -/
def AddSuccessAttempt (l : MaxBadAttemptsBanList) (visitorKey : String) :
    MaxBadAttemptsBanList :=
  match getV l.visitors visitorKey with
  | none => l
  | some _ =>
    { l with visitors := setV l.visitors visitorKey { badAttempts := 0, banTime := none } }

/-- Embeds `IsBanned`: the visitor exists, has a ban stamp, and the stamp is
strictly in the future (`banTime.After(time.Now())`). -/
def IsBanned (l : MaxBadAttemptsBanList) (visitorKey : String) (now : Nat) : Bool :=
  match getV l.visitors visitorKey with
  | none => false
  | some v =>
    match v.banTime with
    | none => false
    | some t => now < t

/-- A run of consecutive `AddBadAttempt` calls for one key, one call per
timestamp in `ts`. -/
def iterBadAttempts (l : MaxBadAttemptsBanList) (visitorKey : String)
    (ts : List Nat) : MaxBadAttemptsBanList :=
  ts.foldl (fun acc t => AddBadAttempt acc visitorKey t) l

theorem getV_setV_same (l : List (String × Visitor)) (k : String) (v : Visitor) :
    getV (setV l k v) k = some v := by
  induction l with
  | nil => simp [getV, setV]
  | cons h t ih =>
    by_cases hk : h.1 = k
    · simp [getV, setV, hk]
    · simp [getV, setV, hk, ih]

theorem iterBad_lt_threshold (T d : Nat) (k : String) (ts : List Nat)
    (c : Nat) (l : MaxBadAttemptsBanList)
    (hT : l.maxBadAttempts = T) (hd : l.banDuration = d)
    (hv : getV l.visitors k = some { badAttempts := c, banTime := none } ∨
          (getV l.visitors k = none ∧ c = 0))
    (hlt : c + ts.length < T) :
    getV (iterBadAttempts l k ts).visitors k
      = some { badAttempts := c + ts.length, banTime := none } ∨
    (getV (iterBadAttempts l k ts).visitors k = none ∧ c + ts.length = 0) := by
  induction ts generalizing l c with
  | nil => simpa [iterBadAttempts] using hv
  | cons t ts ih =>
    simp only [List.length_cons] at hlt
    have hne : ¬ (c + 1 = l.maxBadAttempts) := by
      rw [hT]; omega
    have hstep : getV (AddBadAttempt l k t).visitors k
        = some { badAttempts := c + 1, banTime := none } := by
      rcases hv with hv | ⟨hv, hc⟩
      · simp [AddBadAttempt, hv, hne, getV_setV_same]
      · subst hc
        simp [AddBadAttempt, hv, hne, getV_setV_same]
    have : getV (iterBadAttempts (AddBadAttempt l k t) k ts).visitors k
        = some { badAttempts := (c + 1) + ts.length, banTime := none } ∨
        (getV (iterBadAttempts (AddBadAttempt l k t) k ts).visitors k = none ∧
          (c + 1) + ts.length = 0) := by
      refine ih (c + 1) (AddBadAttempt l k t) ?_ ?_ ?_ ?_
      · simpa [AddBadAttempt] using hT
      · simpa [AddBadAttempt] using hd
      · exact Or.inl hstep
      · omega
    have harr : c + (ts.length + 1) = (c + 1) + ts.length := by omega
    simpa [iterBadAttempts, harr] using this

/-- Claim C5: with threshold `T > 0` and positive ban duration, any `n < T`
consecutive `AddBadAttempt` calls for key `k` leave `IsBanned k` false at
every time; immediately after the `T`-th call `IsBanned k` is true and the
attempt counter is reset to zero; and immediately after `AddSuccessAttempt k`
(from any state) `IsBanned k` is false. -/
theorem banlist_max_bad_attempts (T d : Nat) (k : String) (ts : List Nat)
    (tban : Nat) (hT : 0 < T) (hd : 0 < d) :
    (ts.length < T →
      ∀ t, IsBanned (iterBadAttempts (NewMaxBadAttemptsBanList T d) k ts) k t = false) ∧
    (ts.length + 1 = T →
      IsBanned (AddBadAttempt (iterBadAttempts (NewMaxBadAttemptsBanList T d) k ts) k tban)
          k tban = true ∧
      getV (AddBadAttempt (iterBadAttempts (NewMaxBadAttemptsBanList T d) k ts) k tban).visitors
          k = some { badAttempts := 0, banTime := some (tban + d) }) ∧
    (∀ l t, IsBanned (AddSuccessAttempt l k) k t = false) := by
  have hbase : getV (NewMaxBadAttemptsBanList T d).visitors k = none := by
    simp [NewMaxBadAttemptsBanList, getV]
  refine ⟨?_, ?_, ?_⟩
  · intro hlt t
    have h := iterBad_lt_threshold T d k ts 0 (NewMaxBadAttemptsBanList T d)
      rfl rfl (Or.inr ⟨hbase, rfl⟩) (by omega)
    rcases h with h | ⟨h, _⟩
    · simp only [Nat.zero_add] at h
      simp [IsBanned, h]
    · simp [IsBanned, h]
  · intro hlen
    have hMB : (iterBadAttempts (NewMaxBadAttemptsBanList T d) k ts).maxBadAttempts = T := by
      have : ∀ (l : MaxBadAttemptsBanList) (ts : List Nat),
          (iterBadAttempts l k ts).maxBadAttempts = l.maxBadAttempts := by
        intro l ts
        induction ts generalizing l with
        | nil => rfl
        | cons t ts ih => simpa [iterBadAttempts, AddBadAttempt] using ih (AddBadAttempt l k t)
      simpa [NewMaxBadAttemptsBanList] using this (NewMaxBadAttemptsBanList T d) ts
    have hBD : (iterBadAttempts (NewMaxBadAttemptsBanList T d) k ts).banDuration = d := by
      have : ∀ (l : MaxBadAttemptsBanList) (ts : List Nat),
          (iterBadAttempts l k ts).banDuration = l.banDuration := by
        intro l ts
        induction ts generalizing l with
        | nil => rfl
        | cons t ts ih => simpa [iterBadAttempts, AddBadAttempt] using ih (AddBadAttempt l k t)
      simpa [NewMaxBadAttemptsBanList] using this (NewMaxBadAttemptsBanList T d) ts
    have h := iterBad_lt_threshold T d k ts 0 (NewMaxBadAttemptsBanList T d)
      rfl rfl (Or.inr ⟨hbase, rfl⟩) (by omega)
    have heq : ts.length + 1 = (iterBadAttempts (NewMaxBadAttemptsBanList T d) k ts).maxBadAttempts := by
      rw [hMB]; exact hlen
    rcases h with h | ⟨h, hz⟩
    · simp only [Nat.zero_add] at h
      constructor
      · simp [AddBadAttempt, h, heq, getV_setV_same, IsBanned, hBD]
        omega
      · simp [AddBadAttempt, h, heq, getV_setV_same, hBD]
    · rw [Nat.zero_add] at hz
      rw [hz] at heq
      constructor
      · simp [AddBadAttempt, h, ← heq, getV_setV_same, IsBanned, hBD]
        omega
      · simp [AddBadAttempt, h, ← heq, getV_setV_same, hBD]
  · intro l t
    unfold AddSuccessAttempt
    cases hv : getV l.visitors k with
    | none => simp [IsBanned, hv]
    | some v => simp [IsBanned, getV_setV_same]

/-- Concrete instance of claim C5's theorem: threshold 2, ban duration 5,
one bad attempt then the second (banning) one. -/
theorem banlist_max_bad_attempts_witness :
    0 < 2 ∧ 0 < 5 ∧
    (([0] : List Nat).length < 2 →
      ∀ t, IsBanned (iterBadAttempts (NewMaxBadAttemptsBanList 2 5) "a" [0]) "a" t = false) ∧
    (([0] : List Nat).length + 1 = 2 →
      IsBanned (AddBadAttempt (iterBadAttempts (NewMaxBadAttemptsBanList 2 5) "a" [0]) "a" 7)
          "a" 7 = true ∧
      getV (AddBadAttempt (iterBadAttempts (NewMaxBadAttemptsBanList 2 5) "a" [0]) "a" 7).visitors
          "a" = some { badAttempts := 0, banTime := some (7 + 5) }) ∧
    (∀ l t, IsBanned (AddSuccessAttempt l "a") "a" t = false) :=
  ⟨by decide, by decide,
    banlist_max_bad_attempts 2 5 "a" [0] 7 (by decide) (by decide)⟩

end Security

namespace Dispatcher

/-- Job status constants of share/models (JobStatusRunning etc.). -/
inductive JobStatus
  | running
  | successful
  | failed
  | unknown
deriving DecidableEq, Repr

/-- Outcome of `createAndRunJob` for one client, as decided by the
environment: the job-id generation can fail, the transport send
(`SendRequestAndGetResponse`) can fail, or the send succeeds and the
client later streams back a result with the given status on the
done-channel. -/
inductive SendOutcome
  | jidErr
  | sendErr
  | sendOk (result : JobStatus)
deriving DecidableEq, Repr

/-- Observable effects of the dispatch loop: a `run_cmd` send over the
client transport, or a `CreateJob` persistence call. -/
inductive Event
  | dispatched (clientID : String)
  | persisted (clientID : String) (status : JobStatus)
deriving DecidableEq, Repr

/-- The client an event concerns. -/
def Event.clientID : Event → String
  | .dispatched c => c
  | .persisted c _ => c

/-- Embeds `createAndRunJob` of server/api_middleware.go as its trace of
events plus its boolean return (`err == nil`): on a job-id generation
error nothing happens and false is returned; on a transport error the
child job is persisted as failed and false is returned; on success the
child is persisted as running and true is returned. -/
def createAndRunJob (outcome : String → SendOutcome) (clientID : String) :
    List Event × Bool :=
  match outcome clientID with
  | .jidErr => ([], false)
  | .sendErr => ([.dispatched clientID, .persisted clientID .failed], false)
  | .sendOk _ => ([.dispatched clientID, .persisted clientID .running], true)

/-- Embeds the `concurrent=false` loop of `executeMultiClientJob` of
server/api_middleware.go (production path, `insecureForTests=false`): for
each target in order run `createAndRunJob`; if it returns false, break
when `abortOnErr` else continue; otherwise wait on the done-channel for
the job result and break when `abortOnErr` and the result status is
failed. Returns the concatenated event trace. -/
def executeSequential (abortOnErr : Bool) (outcome : String → SendOutcome) :
    List String → List Event
  | [] => []
  | clientID :: rest =>
    let (evs, success) := createAndRunJob outcome clientID
    if success then
      match outcome clientID with
      | .sendOk st =>
        if abortOnErr ∧ st = .failed then evs
        else evs ++ executeSequential abortOnErr outcome rest
      | _ => evs ++ executeSequential abortOnErr outcome rest
    else
      if abortOnErr then evs else evs ++ executeSequential abortOnErr outcome rest

/-- A child-job failure in the sense of claim C1: the transport send
errors out, or the result received on the done-channel is failed. -/
def failsChild : SendOutcome → Bool
  | .sendErr => true
  | .sendOk .failed => true
  | _ => false

theorem createAndRunJob_clients (outcome : String → SendOutcome) (c : String) :
    ∀ ev ∈ (createAndRunJob outcome c).1, ev.clientID = c := by
  rcases ho : outcome c with _ | _ | st <;>
    simp [createAndRunJob, ho, Event.clientID]

theorem executeSequential_cons (abortOnErr : Bool)
    (outcome : String → SendOutcome) (c : String) (rest : List String) :
    executeSequential abortOnErr outcome (c :: rest)
        = (createAndRunJob outcome c).1 ++ executeSequential abortOnErr outcome rest ∨
    executeSequential abortOnErr outcome (c :: rest) = (createAndRunJob outcome c).1 := by
  rw [executeSequential]
  rcases ho : outcome c with _ | _ | st <;>
    simp only [createAndRunJob, ho] <;>
    cases abortOnErr <;>
    simp [createAndRunJob, ho]
  by_cases hst : st = JobStatus.failed <;> simp [hst]

theorem executeSequential_clients (abortOnErr : Bool)
    (outcome : String → SendOutcome) (targets : List String) :
    ∀ ev ∈ executeSequential abortOnErr outcome targets, ev.clientID ∈ targets := by
  induction targets with
  | nil => simp [executeSequential]
  | cons c rest ih =>
    intro ev hev
    rcases executeSequential_cons abortOnErr outcome c rest with h | h <;> rw [h] at hev
    · rcases List.mem_append.mp hev with h1 | h1
      · rw [createAndRunJob_clients outcome c ev h1]
        exact List.mem_cons_self c rest
      · exact List.mem_cons_of_mem c (ih ev h1)
    · rw [createAndRunJob_clients outcome c ev hev]
      exact List.mem_cons_self c rest

theorem executeSequential_stops_at_failure
    (outcome : String → SendOutcome) (pre post : List String) (c : String)
    (hfail : failsChild (outcome c) = true) :
    executeSequential true outcome (pre ++ c :: post)
      = executeSequential true outcome (pre ++ [c]) := by
  induction pre with
  | nil =>
    simp only [List.nil_append]
    rcases ho : outcome c with _ | _ | st <;> rw [ho] at hfail
    · simp [failsChild] at hfail
    · rw [executeSequential, executeSequential]
      simp [createAndRunJob, ho, executeSequential]
    · rcases st <;> simp [failsChild] at hfail
      rw [executeSequential, executeSequential]
      simp [createAndRunJob, ho]
  | cons d pre ih =>
    simp only [List.cons_append]
    rw [executeSequential, executeSequential]
    rcases ho : outcome d with _ | _ | st <;> simp only [createAndRunJob, ho]
    · simp
    · simp
    · by_cases hst : st = JobStatus.failed
      · simp [hst]
      · simp only [ih, hst, and_false, true_and, if_false, if_true, if_pos, if_neg,
          not_false_eq_true]

/-- Claim C1: in a sequential (`concurrent=false`) multi-client job with
`abort_on_error=true`, once the child for target `c` fails (transport send
error, or a failed status received on the done-channel), no child job for
any later target `c'` is ever dispatched or persisted. -/
theorem sequential_abort_on_error
    (outcome : String → SendOutcome) (pre post : List String) (c c' : String)
    (hfail : failsChild (outcome c) = true)
    (hpost : c' ∈ post) (hpre : c' ∉ pre) (hne : c' ≠ c) :
    ∀ ev ∈ executeSequential true outcome (pre ++ c :: post), ev.clientID ≠ c' := by
  intro ev hev
  rw [executeSequential_stops_at_failure outcome pre post c hfail] at hev
  have hmem := executeSequential_clients true outcome (pre ++ [c]) ev hev
  intro hc
  rw [hc] at hmem
  rcases List.mem_append.mp hmem with h | h
  · exact hpre h
  · exact hne (by simpa using h)

/-- Concrete instance of claim C1's theorem: targets `[A, B, C]`, the child
at `A` fails on the transport send, and neither `B` nor `C` appears in any
dispatched or persisted event. -/
theorem sequential_abort_on_error_witness :
    (failsChild ((fun cid => if cid = "A" then SendOutcome.sendErr
        else SendOutcome.sendOk JobStatus.successful) "A") = true) ∧
    ("B" : String) ∈ ["B", "C"] ∧ ("B" : String) ∉ ([] : List String) ∧ ("B" : String) ≠ "A" ∧
    (∀ ev ∈ executeSequential true
        (fun cid => if cid = "A" then SendOutcome.sendErr
          else SendOutcome.sendOk JobStatus.successful)
        ([] ++ "A" :: ["B", "C"]), ev.clientID ≠ "B") :=
  ⟨by decide, by decide, by decide, by decide,
    sequential_abort_on_error
      (fun cid => if cid = "A" then SendOutcome.sendErr
        else SendOutcome.sendOk JobStatus.successful)
      [] ["B", "C"] "A" "B" (by decide) (by decide) (by decide) (by decide)⟩

end Dispatcher

namespace Ports

/-- Protocol constant `models.ProtocolTCP`. -/
def ProtocolTCP : String := "tcp"

/-- Protocol constant `models.ProtocolUDP`. -/
def ProtocolUDP : String := "udp"

/-- Protocol constant `models.ProtocolTCPUDP`. -/
def ProtocolTCPUDP : String := "tcp+udp"

/-- A `mapset.Set` of ports is modelled as a duplicate-free list; `Pop`'s
random choice is an external picker function. Go's `map[string]mapset.Set`
becomes an association list; a missing key reads as `none` (Go's nil set). -/
def getPoolMap : List (String × List Nat) → String → Option (List Nat)
  | [], _ => none
  | (k, v) :: t, p => if k = p then some v else getPoolMap t p

/-- Association-list update standing for `d.portsPools[p] = m`. -/
def setPoolMap : List (String × List Nat) → String → List Nat → List (String × List Nat)
  | [], p, m => [(p, m)]
  | (k, v) :: t, p, m => if k = p then (p, m) :: t else (k, v) :: setPoolMap t p m

/-- mapset `Difference`. -/
def setDiff (a b : List Nat) : List Nat := a.filter (fun x => decide (x ∉ b))

/-- mapset `Intersect`. -/
def setIntersect (a b : List Nat) : List Nat := a.filter (fun x => decide (x ∈ b))

/-- mapset `Remove`. -/
def setRemove (a : List Nat) (x : Nat) : List Nat := a.filter (fun y => decide (y ≠ x))

/-- Embeds `PortDistributor` of server/ports/port_distributor.go. -/
structure PortDistributor where
  allowedPorts : List Nat
  portsPools : List (String × List Nat)
deriving DecidableEq, Repr

/-- Embeds `GetPortsPool`. -/
def GetPortsPool (d : PortDistributor) (p : String) : Option (List Nat) :=
  getPoolMap d.portsPools p

/-- Embeds `SetPortsPool`. -/
def SetPortsPool (d : PortDistributor) (p : String) (m : List Nat) : PortDistributor :=
  { d with portsPools := setPoolMap d.portsPools p m }

/-- Error results of `GetRandomPort`: an I/O error from the busy-ports
probe, or `no ports available`. -/
inductive PortErr
  | ioError
  | noPorts
deriving DecidableEq, Repr

/-- The sub-protocol list computed at the head of `GetRandomPort`. -/
def subProtocols (protocol : String) : List String :=
  if protocol = ProtocolTCPUDP then [ProtocolTCP, ProtocolUDP] else [protocol]

/-- Embeds the initial loop of `GetRandomPort`: for each sub-protocol with a
nil pool, run `refresh` (pool becomes `allowed − busy`, where `busy p = none`
models an OS probe error, aborting with an error). -/
def ensurePools (busy : String → Option (List Nat)) :
    List String → PortDistributor → PortDistributor × Bool
  | [], d => (d, true)
  | p :: rest, d =>
    match GetPortsPool d p with
    | some _ => ensurePools busy rest d
    | none =>
      match busy p with
      | none => (d, false)
      | some b => ensurePools busy rest (SetPortsPool d p (setDiff d.allowedPorts b))

/-- Embeds `getPool`: for `tcp+udp` the intersection of the TCP and UDP
pools, otherwise the stored pool (`none` = Go's nil, unreachable after the
refresh loop). -/
def getPool (d : PortDistributor) (protocol : String) : Option (List Nat) :=
  if protocol = ProtocolTCPUDP then
    match GetPortsPool d ProtocolTCP, GetPortsPool d ProtocolUDP with
    | some a, some b => some (setIntersect a b)
    | _, _ => none
  else GetPortsPool d protocol

/-- Embeds `GetRandomPort` of server/ports/port_distributor.go: refresh nil
sub-pools, `Pop` an arbitrary element of `getPool protocol` (the picker
models mapset's random `Pop`; `Pop` also deletes the element from the
popped set, and the trailing loop removes it from every sub-protocol pool —
together: the port is erased from each stored sub-protocol pool). -/
def GetRandomPort (pick : List Nat → Option Nat) (busy : String → Option (List Nat))
    (d : PortDistributor) (protocol : String) : Except PortErr Nat × PortDistributor :=
  match ensurePools busy (subProtocols protocol) d with
  | (d1, false) => (Except.error PortErr.ioError, d1)
  | (d1, true) =>
    match getPool d1 protocol with
    | none => (Except.error PortErr.ioError, d1)
    | some pool =>
      match pick pool with
      | none => (Except.error PortErr.noPorts, d1)
      | some port =>
        (Except.ok port,
          (subProtocols protocol).foldl (fun acc p =>
            match GetPortsPool acc p with
            | none => acc
            | some s => SetPortsPool acc p (setRemove s port)) d1)

/-- The specification a picker must satisfy to model mapset's `Pop`:
it returns `none` exactly on the empty set and otherwise some member. -/
def PickSpec (pick : List Nat → Option Nat) : Prop :=
  ∀ l : List Nat, (pick l = none → l = []) ∧ (∀ x, pick l = some x → x ∈ l)

theorem getPoolMap_set_same (l : List (String × List Nat)) (p : String) (m : List Nat) :
    getPoolMap (setPoolMap l p m) p = some m := by
  induction l with
  | nil => simp [getPoolMap, setPoolMap]
  | cons h t ih =>
    by_cases hk : h.1 = p
    · simp [getPoolMap, setPoolMap, hk]
    · simp [getPoolMap, setPoolMap, hk, ih]

theorem getPoolMap_set_other (l : List (String × List Nat)) (p q : String)
    (m : List Nat) (h : p ≠ q) :
    getPoolMap (setPoolMap l p m) q = getPoolMap l q := by
  induction l with
  | nil => simp [getPoolMap, setPoolMap, h]
  | cons hd t ih =>
    by_cases hk : hd.1 = p
    · simp [getPoolMap, setPoolMap, hk, h]
    · simp [getPoolMap, setPoolMap, hk, ih]

theorem GetPortsPool_set_same (d : PortDistributor) (p : String) (m : List Nat) :
    GetPortsPool (SetPortsPool d p m) p = some m := by
  simp [GetPortsPool, SetPortsPool, getPoolMap_set_same]

theorem GetPortsPool_set_other (d : PortDistributor) (p q : String)
    (m : List Nat) (h : p ≠ q) :
    GetPortsPool (SetPortsPool d p m) q = GetPortsPool d q := by
  simp [GetPortsPool, SetPortsPool, getPoolMap_set_other _ _ _ _ h]

theorem ensurePools_present (busy : String → Option (List Nat))
    (subs : List String) (d : PortDistributor)
    (h : ∀ p ∈ subs, GetPortsPool d p ≠ none) :
    ensurePools busy subs d = (d, true) := by
  induction subs with
  | nil => rfl
  | cons p rest ih =>
    have hp := h p (List.mem_cons_self p rest)
    cases hgp : GetPortsPool d p with
    | none => exact absurd hgp hp
    | some s =>
      rw [ensurePools, hgp]
      exact ih (fun q hq => h q (List.mem_cons_of_mem p hq))

theorem not_mem_setRemove (s : List Nat) (x : Nat) : x ∉ setRemove s x := by
  simp [setRemove]

/-- The distributor of claim C7: allowed ports {45,46} and an empty busy
set, so both sub-pools hold {45,46} (as built by
`NewPortDistributorForTests`). -/
def testDistributor : PortDistributor :=
  { allowedPorts := [45, 46],
    portsPools := [(ProtocolTCP, [45, 46]), (ProtocolUDP, [45, 46])] }

/-- Claim C7: on the `{45,46}` TCP pool two successive `GetRandomPort "tcp"`
calls return 45 and 46 in some order and a third returns the no-ports
error; in general (whenever the sub-pools are initialized) the result is
the no-ports error exactly when the pool is empty, and a returned port is
removed from every sub-protocol pool (both TCP and UDP for `tcp+udp`). -/
theorem get_random_port_spec (pick : List Nat → Option Nat)
    (busy : String → Option (List Nat)) (hpick : PickSpec pick) :
    (∃ p1 p2 d1 d2 d3,
      GetRandomPort pick busy testDistributor ProtocolTCP = (Except.ok p1, d1) ∧
      GetRandomPort pick busy d1 ProtocolTCP = (Except.ok p2, d2) ∧
      GetRandomPort pick busy d2 ProtocolTCP = (Except.error PortErr.noPorts, d3) ∧
      ((p1 = 45 ∧ p2 = 46) ∨ (p1 = 46 ∧ p2 = 45))) ∧
    (∀ d proto, (∀ p ∈ subProtocols proto, GetPortsPool d p ≠ none) →
      ((GetRandomPort pick busy d proto).1 = Except.error PortErr.noPorts ↔
        getPool d proto = some []) ∧
      (∀ port r, GetRandomPort pick busy d proto = (Except.ok port, r) →
        ∀ p ∈ subProtocols proto, ∃ s, GetPortsPool d p = some s ∧
          GetPortsPool r p = some (setRemove s port) ∧ port ∉ setRemove s port)) := by
  constructor
  · cases hp1 : pick [45, 46] with
    | none => exact absurd ((hpick [45, 46]).1 hp1) (by decide)
    | some p1 =>
      have hmem1 : p1 ∈ [45, 46] := (hpick [45, 46]).2 p1 hp1
      have hrun1 : GetRandomPort pick busy testDistributor ProtocolTCP
          = (Except.ok p1,
             SetPortsPool testDistributor ProtocolTCP (setRemove [45, 46] p1)) := by
        simp [GetRandomPort, subProtocols, ensurePools, getPool, GetPortsPool,
          getPoolMap, testDistributor, ProtocolTCP, ProtocolUDP, ProtocolTCPUDP, hp1]
      rcases List.mem_pair.mp hmem1 with h45 | h46
      · subst h45
        cases hp2 : pick [46] with
        | none => exact absurd ((hpick [46]).1 hp2) (by decide)
        | some p2 =>
          have hmem2 : p2 ∈ [46] := (hpick [46]).2 p2 hp2
          have hp2' : p2 = 46 := by simpa using hmem2
          subst hp2'
          cases hp3 : pick [] with
          | some x => exact absurd ((hpick []).2 x hp3) (by simp)
          | none =>
            refine ⟨45, 46,
              { allowedPorts := [45, 46],
                portsPools := [(ProtocolTCP, [46]), (ProtocolUDP, [45, 46])] },
              { allowedPorts := [45, 46],
                portsPools := [(ProtocolTCP, []), (ProtocolUDP, [45, 46])] },
              { allowedPorts := [45, 46],
                portsPools := [(ProtocolTCP, []), (ProtocolUDP, [45, 46])] },
              ?_, ?_, ?_, Or.inl ⟨rfl, rfl⟩⟩
            · simp [GetRandomPort, subProtocols, ensurePools, getPool, GetPortsPool,
                getPoolMap, testDistributor, ProtocolTCP, ProtocolUDP, ProtocolTCPUDP,
                SetPortsPool, setPoolMap, setRemove, hp1]
            · simp [GetRandomPort, subProtocols, ensurePools, getPool, GetPortsPool,
                getPoolMap, testDistributor, ProtocolTCP, ProtocolUDP, ProtocolTCPUDP,
                SetPortsPool, setPoolMap, setRemove, hp2]
            · simp [GetRandomPort, subProtocols, ensurePools, getPool, GetPortsPool,
                getPoolMap, testDistributor, ProtocolTCP, ProtocolUDP, ProtocolTCPUDP,
                SetPortsPool, setPoolMap, setRemove, hp3]
      · subst h46
        cases hp2 : pick [45] with
        | none => exact absurd ((hpick [45]).1 hp2) (by decide)
        | some p2 =>
          have hmem2 : p2 ∈ [45] := (hpick [45]).2 p2 hp2
          have hp2' : p2 = 45 := by simpa using hmem2
          subst hp2'
          cases hp3 : pick [] with
          | some x => exact absurd ((hpick []).2 x hp3) (by simp)
          | none =>
            refine ⟨46, 45,
              { allowedPorts := [45, 46],
                portsPools := [(ProtocolTCP, [45]), (ProtocolUDP, [45, 46])] },
              { allowedPorts := [45, 46],
                portsPools := [(ProtocolTCP, []), (ProtocolUDP, [45, 46])] },
              { allowedPorts := [45, 46],
                portsPools := [(ProtocolTCP, []), (ProtocolUDP, [45, 46])] },
              ?_, ?_, ?_, Or.inr ⟨rfl, rfl⟩⟩
            · simp [GetRandomPort, subProtocols, ensurePools, getPool, GetPortsPool,
                getPoolMap, testDistributor, ProtocolTCP, ProtocolUDP, ProtocolTCPUDP,
                SetPortsPool, setPoolMap, setRemove, hp1]
            · simp [GetRandomPort, subProtocols, ensurePools, getPool, GetPortsPool,
                getPoolMap, testDistributor, ProtocolTCP, ProtocolUDP, ProtocolTCPUDP,
                SetPortsPool, setPoolMap, setRemove, hp2]
            · simp [GetRandomPort, subProtocols, ensurePools, getPool, GetPortsPool,
                getPoolMap, testDistributor, ProtocolTCP, ProtocolUDP, ProtocolTCPUDP,
                SetPortsPool, setPoolMap, setRemove, hp3]
  · intro d proto hpools
    have hens : ensurePools busy (subProtocols proto) d = (d, true) :=
      ensurePools_present busy _ d hpools
    by_cases hTU : proto = ProtocolTCPUDP
    · subst hTU
      have hsubs : subProtocols ProtocolTCPUDP = [ProtocolTCP, ProtocolUDP] := by
        simp [subProtocols]
      rw [hsubs] at hpools hens
      cases hst : GetPortsPool d ProtocolTCP with
      | none => exact absurd hst (hpools ProtocolTCP (by simp))
      | some st =>
        cases hsu : GetPortsPool d ProtocolUDP with
        | none => exact absurd hsu (hpools ProtocolUDP (by simp))
        | some su =>
          have hgp : getPool d ProtocolTCPUDP = some (setIntersect st su) := by
            simp [getPool, hst, hsu]
          constructor
          · cases hp : pick (setIntersect st su) with
            | none =>
              have hempty := (hpick (setIntersect st su)).1 hp
              rw [hempty] at hp hgp
              simp [GetRandomPort, hsubs, hens, hgp, hp]
            | some port =>
              have hmem := (hpick (setIntersect st su)).2 port hp
              constructor
              · intro habs
                simp [GetRandomPort, hsubs, hens, hgp, hp] at habs
              · intro heq
                rw [hgp] at heq
                have : setIntersect st su = [] := by injection heq
                rw [this] at hmem
                cases hmem
          · intro port r hrun
            simp only [GetRandomPort, hsubs, hens, hgp] at hrun
            cases hp : pick (setIntersect st su) with
            | none => rw [hp] at hrun; cases hrun
            | some q =>
              rw [hp] at hrun
              simp only [List.foldl, hst, Prod.mk.injEq, Except.ok.injEq] at hrun
              obtain ⟨hq, hr⟩ := hrun
              rw [hq] at hr
              have hsu1 : GetPortsPool (SetPortsPool d ProtocolTCP (setRemove st port))
                  ProtocolUDP = some su := by
                rw [GetPortsPool_set_other _ _ _ _ (by decide)]
                exact hsu
              rw [hsu1] at hr
              intro p hps
              rw [hsubs] at hps
              rcases List.mem_pair.mp hps with hpp | hpp <;> subst hpp
              · refine ⟨st, hst, ?_, not_mem_setRemove st port⟩
                rw [← hr, GetPortsPool_set_other _ _ _ _ (by decide),
                  GetPortsPool_set_same]
              · refine ⟨su, hsu, ?_, not_mem_setRemove su port⟩
                rw [← hr, GetPortsPool_set_same]
    · have hsubs : subProtocols proto = [proto] := by
        simp [subProtocols, hTU]
      rw [hsubs] at hpools hens
      cases hs : GetPortsPool d proto with
      | none => exact absurd hs (hpools proto (by simp))
      | some s =>
        have hgp : getPool d proto = some s := by
          simp [getPool, hTU, hs]
        constructor
        · cases hp : pick s with
          | none =>
            have hempty := (hpick s).1 hp
            rw [hempty] at hp hgp
            simp [GetRandomPort, hsubs, hens, hgp, hp]
          | some port =>
            have hmem := (hpick s).2 port hp
            constructor
            · intro habs
              simp [GetRandomPort, hsubs, hens, hgp, hp] at habs
            · intro heq
              rw [hgp] at heq
              have : s = [] := by injection heq
              rw [this] at hmem
              cases hmem
        · intro port r hrun
          simp only [GetRandomPort, hsubs, hens, hgp] at hrun
          cases hp : pick s with
          | none => rw [hp] at hrun; cases hrun
          | some q =>
            rw [hp] at hrun
            simp only [List.foldl, hs, Prod.mk.injEq, Except.ok.injEq] at hrun
            obtain ⟨hq, hr⟩ := hrun
            rw [hq] at hr
            intro p hps
            rw [hsubs] at hps
            have hpp : p = proto := by simpa using hps
            subst hpp
            refine ⟨s, hs, ?_, not_mem_setRemove s port⟩
            rw [← hr, GetPortsPool_set_same]

/-- A deterministic picker (mapset `Pop` returning the first element)
used to instantiate the picker hypotheses. -/
def headPick (l : List Nat) : Option Nat := l.head?

theorem headPick_spec : PickSpec headPick := by
  intro l
  constructor
  · intro h
    cases l with
    | nil => rfl
    | cons a t => simp [headPick] at h
  · intro x h
    cases l with
    | nil => simp [headPick] at h
    | cons a t =>
      simp [headPick] at h
      simp [h]

/-- Concrete instance of claim C7's theorem, with the first-element picker. -/
theorem get_random_port_spec_witness :
    PickSpec headPick ∧
    ((∃ p1 p2 d1 d2 d3,
      GetRandomPort headPick (fun _ => none) testDistributor ProtocolTCP
          = (Except.ok p1, d1) ∧
      GetRandomPort headPick (fun _ => none) d1 ProtocolTCP = (Except.ok p2, d2) ∧
      GetRandomPort headPick (fun _ => none) d2 ProtocolTCP
          = (Except.error PortErr.noPorts, d3) ∧
      ((p1 = 45 ∧ p2 = 46) ∨ (p1 = 46 ∧ p2 = 45))) ∧
    (∀ d proto, (∀ p ∈ subProtocols proto, GetPortsPool d p ≠ none) →
      ((GetRandomPort headPick (fun _ => none) d proto).1 = Except.error PortErr.noPorts ↔
        getPool d proto = some []) ∧
      (∀ port r, GetRandomPort headPick (fun _ => none) d proto = (Except.ok port, r) →
        ∀ p ∈ subProtocols proto, ∃ s, GetPortsPool d p = some s ∧
          GetPortsPool r p = some (setRemove s port) ∧ port ∉ setRemove s port))) :=
  ⟨headPick_spec, get_random_port_spec headPick (fun _ => none) headPick_spec⟩

theorem get_random_port_frame_plain (pick : List Nat → Option Nat)
    (busy : String → Option (List Nat)) (d : PortDistributor)
    (x : String) (hx : x ≠ ProtocolTCPUDP) :
    ∀ port r, GetRandomPort pick busy d x = (Except.ok port, r) →
      r.allowedPorts = d.allowedPorts ∧
      ∀ p, p ≠ x → GetPortsPool r p = GetPortsPool d p := by
  intro port r hrun
  have hsubs : subProtocols x = [x] := by simp [subProtocols, hx]
  cases hgp : GetPortsPool d x with
  | some s =>
    have hens : ensurePools busy [x] d = (d, true) := by
      rw [ensurePools, hgp]
      rfl
    have hpool : getPool d x = some s := by
      simp [getPool, hx, hgp]
    simp only [GetRandomPort, hsubs, hens, hpool] at hrun
    cases hp : pick s with
    | none => rw [hp] at hrun; cases hrun
    | some q =>
      rw [hp] at hrun
      simp only [List.foldl, hgp, Prod.mk.injEq, Except.ok.injEq] at hrun
      obtain ⟨hq, hr⟩ := hrun
      rw [← hr]
      refine ⟨rfl, ?_⟩
      intro p hp'
      exact GetPortsPool_set_other d x p _ (fun h => hp' h.symm)
  | none =>
    cases hb : busy x with
    | none =>
      have hens : ensurePools busy [x] d = (d, false) := by
        rw [ensurePools, hgp, hb]
      simp only [GetRandomPort, hsubs, hens] at hrun
      cases hrun
    | some b =>
      have hens : ensurePools busy [x] d
          = (SetPortsPool d x (setDiff d.allowedPorts b), true) := by
        rw [ensurePools, hgp, hb]
        rfl
      have hd1 : GetPortsPool (SetPortsPool d x (setDiff d.allowedPorts b)) x
          = some (setDiff d.allowedPorts b) := GetPortsPool_set_same d x _
      have hpool : getPool (SetPortsPool d x (setDiff d.allowedPorts b)) x
          = some (setDiff d.allowedPorts b) := by
        simp [getPool, hx, hd1]
      simp only [GetRandomPort, hsubs, hens, hpool] at hrun
      cases hp : pick (setDiff d.allowedPorts b) with
      | none => rw [hp] at hrun; cases hrun
      | some q =>
        rw [hp] at hrun
        simp only [List.foldl, hd1, Prod.mk.injEq, Except.ok.injEq] at hrun
        obtain ⟨hq, hr⟩ := hrun
        rw [← hr]
        refine ⟨rfl, ?_⟩
        intro p hp'
        rw [GetPortsPool_set_other _ x p _ (fun h => hp' h.symm),
          GetPortsPool_set_other _ x p _ (fun h => hp' h.symm)]

/-- Claim C10: a plain `"tcp"` allocation that returns a port modifies only
the TCP pool entry: the allowed-ports set, the UDP pool and every other
entry of the per-protocol pool map are unchanged; symmetrically for a
plain `"udp"` allocation. -/
theorem get_random_port_frame (pick : List Nat → Option Nat)
    (busy : String → Option (List Nat)) (d : PortDistributor) :
    (∀ port r, GetRandomPort pick busy d ProtocolTCP = (Except.ok port, r) →
      r.allowedPorts = d.allowedPorts ∧
      GetPortsPool r ProtocolUDP = GetPortsPool d ProtocolUDP ∧
      (∀ p, p ≠ ProtocolTCP → GetPortsPool r p = GetPortsPool d p)) ∧
    (∀ port r, GetRandomPort pick busy d ProtocolUDP = (Except.ok port, r) →
      r.allowedPorts = d.allowedPorts ∧
      GetPortsPool r ProtocolTCP = GetPortsPool d ProtocolTCP ∧
      (∀ p, p ≠ ProtocolUDP → GetPortsPool r p = GetPortsPool d p)) := by
  constructor
  · intro port r hrun
    obtain ⟨ha, hother⟩ :=
      get_random_port_frame_plain pick busy d ProtocolTCP (by decide) port r hrun
    exact ⟨ha, hother ProtocolUDP (by decide), hother⟩
  · intro port r hrun
    obtain ⟨ha, hother⟩ :=
      get_random_port_frame_plain pick busy d ProtocolUDP (by decide) port r hrun
    exact ⟨ha, hother ProtocolTCP (by decide), hother⟩

/-- Concrete instance of claim C10's theorem: allocating 45 from the TCP
pool leaves the UDP pool and the allowed set unchanged. -/
theorem get_random_port_frame_witness :
    GetRandomPort headPick (fun _ => none) testDistributor ProtocolTCP
      = (Except.ok 45,
         { allowedPorts := [45, 46],
           portsPools := [(ProtocolTCP, [46]), (ProtocolUDP, [45, 46])] }) ∧
    ({ allowedPorts := [45, 46],
       portsPools := [(ProtocolTCP, [46]), (ProtocolUDP, [45, 46])] : PortDistributor }.allowedPorts
        = testDistributor.allowedPorts ∧
     GetPortsPool
       { allowedPorts := [45, 46],
         portsPools := [(ProtocolTCP, [46]), (ProtocolUDP, [45, 46])] } ProtocolUDP
        = GetPortsPool testDistributor ProtocolUDP ∧
     (∀ p, p ≠ ProtocolTCP →
       GetPortsPool
         { allowedPorts := [45, 46],
           portsPools := [(ProtocolTCP, [46]), (ProtocolUDP, [45, 46])] } p
          = GetPortsPool testDistributor p)) :=
  ⟨by rfl,
    (get_random_port_frame headPick (fun _ => none) testDistributor).1 45 _ (by rfl)⟩

end Ports

namespace OrderedClients

/-- The slice of `clients.Client` that `getOrderedClients` inspects: the ID
and `DisconnectedAt` (`none` = currently connected). -/
structure Client where
  id : String
  disconnectedAt : Option Nat
deriving DecidableEq, Repr

/-- HTTP statuses carried by the `errors2.APIError` values built in
`getOrderedClients`. -/
inductive ApiStatus
  | badRequest
  | notFound
deriving DecidableEq, Repr

/-- Environment of `getOrderedClients`: the group provider (a group is
represented by its ID; `none` = unknown group), the client registry lookup
`clientService.GetByID` (`none` = unknown client), and
`clientService.GetActiveByGroups`. Infra (database) errors of the
providers are not modelled. -/
structure Env where
  getGroup : String → Option String
  getClient : String → Option Client
  getActiveByGroups : List String → List Client

/-- Embeds the group-fetching loop at the head of `getOrderedClients`
(server/api_middleware.go): every requested group is fetched; an unknown
one aborts with a bad-request error. -/
def collectGroups (env : Env) : List String → Except ApiStatus (List String)
  | [] => Except.ok []
  | gid :: rest =>
    match env.getGroup gid with
    | none => Except.error ApiStatus.badRequest
    | some g =>
      match collectGroups env rest with
      | Except.error e => Except.error e
      | Except.ok gs => Except.ok (g :: gs)

/-- Embeds the explicit-`clientIDs` loop of `getOrderedClients`: each ID is
looked up (unknown aborts not-found, disconnected aborts bad-request),
marked used, and its client appended — unconditionally, even when the ID
was already used. -/
def explicitLoop (env : Env) : List String → List Client → List String →
    Except ApiStatus (List Client × List String)
  | [], acc, used => Except.ok (acc, used)
  | cid :: rest, acc, used =>
    match env.getClient cid with
    | none => Except.error ApiStatus.notFound
    | some cl =>
      match cl.disconnectedAt with
      | some _ => Except.error ApiStatus.badRequest
      | none => explicitLoop env rest (acc ++ [cl]) (used ++ [cid])

/-- Embeds the trailing group-client loop of `getOrderedClients`: append
each group-derived client whose ID is not yet used. -/
def appendGroupClients (used : List String) (acc : List Client) :
    List Client → List Client
  | [] => acc
  | gc :: rest =>
    if gc.id ∈ used then appendGroupClients used acc rest
    else appendGroupClients (used ++ [gc.id]) (acc ++ [gc]) rest

/-- Embeds `getOrderedClients` of server/api_middleware.go. -/
def getOrderedClients (env : Env) (clientIDs groupIDs : List String) :
    Except ApiStatus (List Client × Nat) :=
  match collectGroups env groupIDs with
  | Except.error e => Except.error e
  | Except.ok groups =>
    let groupClients := env.getActiveByGroups groups
    match explicitLoop env clientIDs [] [] with
    | Except.error e => Except.error e
    | Except.ok (ordered, used) =>
      Except.ok (appendGroupClients used ordered groupClients, groupClients.length)

/-- An explicit client ID on which the loop aborts: unknown, or known but
disconnected. -/
def cidBad (env : Env) (cid : String) : Bool :=
  match env.getClient cid with
  | none => true
  | some cl => cl.disconnectedAt.isSome

/-- Environment of the counterexample: client `A` connected, no groups. -/
def envDup : Env :=
  { getGroup := fun _ => none,
    getClient := fun cid => if cid = "A" then some { id := "A", disconnectedAt := none } else none,
    getActiveByGroups := fun _ => [] }

theorem collectGroups_unknown (env : Env) (gids : List String)
    (h : ∃ g ∈ gids, env.getGroup g = none) :
    collectGroups env gids = Except.error ApiStatus.badRequest := by
  induction gids with
  | nil => simp at h
  | cons gid rest ih =>
    rw [collectGroups]
    cases hg : env.getGroup gid with
    | none => rfl
    | some g =>
      obtain ⟨g', hg', hnone⟩ := h
      rcases List.mem_cons.mp hg' with rfl | hmem
      · rw [hg] at hnone; cases hnone
      · rw [ih ⟨g', hmem, hnone⟩]

theorem collectGroups_known (env : Env) (gids : List String)
    (h : ∀ g ∈ gids, (env.getGroup g).isSome) :
    collectGroups env gids = Except.ok (gids.filterMap env.getGroup) := by
  induction gids with
  | nil => rfl
  | cons gid rest ih =>
    cases hg : env.getGroup gid with
    | none =>
      have := h gid (List.mem_cons_self gid rest)
      rw [hg] at this
      cases this
    | some g =>
      rw [collectGroups, hg, ih (fun g' hm => h g' (List.mem_cons_of_mem gid hm))]
      simp [List.filterMap_cons, hg]

theorem explicitLoop_all_good (env : Env) (cids : List String)
    (acc : List Client) (used : List String)
    (h : cids.find? (cidBad env) = none) :
    explicitLoop env cids acc used
      = Except.ok (acc ++ cids.filterMap env.getClient, used ++ cids) := by
  induction cids generalizing acc used with
  | nil => simp [explicitLoop]
  | cons cid rest ih =>
    rw [List.find?_cons] at h
    cases hbad : cidBad env cid with
    | true => rw [hbad] at h; cases h
    | false =>
      rw [hbad] at h
      cases hc : env.getClient cid with
      | none => simp only [cidBad, hc] at hbad; cases hbad
      | some cl =>
        cases hd : cl.disconnectedAt with
        | some t => simp only [cidBad, hc, hd, Option.isSome_some] at hbad; cases hbad
        | none =>
          rw [explicitLoop]
          simp only [hc, hd]
          rw [ih (acc ++ [cl]) (used ++ [cid]) h]
          simp [List.filterMap_cons, hc]

theorem explicitLoop_not_found (env : Env) (cids : List String)
    (acc : List Client) (used : List String) (cid : String)
    (h : cids.find? (cidBad env) = some cid)
    (hc : env.getClient cid = none) :
    explicitLoop env cids acc used = Except.error ApiStatus.notFound := by
  induction cids generalizing acc used with
  | nil => simp at h
  | cons cid' rest ih =>
    rw [List.find?_cons] at h
    cases hbad : cidBad env cid' with
    | true =>
      rw [hbad] at h
      have : cid' = cid := by injection h
      subst this
      rw [explicitLoop]
      simp only [hc]
    | false =>
      rw [hbad] at h
      cases hc' : env.getClient cid' with
      | none => simp only [cidBad, hc'] at hbad; cases hbad
      | some cl =>
        cases hd : cl.disconnectedAt with
        | some t => simp only [cidBad, hc', hd, Option.isSome_some] at hbad; cases hbad
        | none =>
          rw [explicitLoop]
          simp only [hc', hd]
          exact ih (acc ++ [cl]) (used ++ [cid']) h

theorem explicitLoop_disconnected (env : Env) (cids : List String)
    (acc : List Client) (used : List String) (cid : String) (cl : Client)
    (h : cids.find? (cidBad env) = some cid)
    (hc : env.getClient cid = some cl) :
    explicitLoop env cids acc used = Except.error ApiStatus.badRequest := by
  induction cids generalizing acc used with
  | nil => simp at h
  | cons cid' rest ih =>
    rw [List.find?_cons] at h
    cases hbad : cidBad env cid' with
    | true =>
      rw [hbad] at h
      have : cid' = cid := by injection h
      subst this
      have hdis : cl.disconnectedAt.isSome := by
        simp only [cidBad, hc] at hbad
        exact hbad
      cases hd : cl.disconnectedAt with
      | none => rw [hd] at hdis; cases hdis
      | some t =>
        rw [explicitLoop]
        simp only [hc, hd]
    | false =>
      rw [hbad] at h
      cases hc' : env.getClient cid' with
      | none => simp only [cidBad, hc'] at hbad; cases hbad
      | some cl' =>
        cases hd : cl'.disconnectedAt with
        | some t => simp only [cidBad, hc', hd, Option.isSome_some] at hbad; cases hbad
        | none =>
          rw [explicitLoop]
          simp only [hc', hd]
          exact ih (acc ++ [cl']) (used ++ [cid']) h

theorem appendGroupClients_eq (l : List Client) (used : List String)
    (acc : List Client) (hnd : (l.map Client.id).Nodup) :
    appendGroupClients used acc l
      = acc ++ l.filter (fun gc => decide (gc.id ∉ used)) := by
  induction l generalizing used acc with
  | nil => simp [appendGroupClients]
  | cons gc rest ih =>
    simp only [List.map_cons, List.nodup_cons] at hnd
    obtain ⟨hgc, hnd'⟩ := hnd
    by_cases hmem : gc.id ∈ used
    · rw [appendGroupClients, if_pos hmem, ih _ _ hnd']
      simp [List.filter_cons, hmem]
    · rw [appendGroupClients, if_neg hmem, ih _ _ hnd']
      have hfilter : rest.filter (fun x => decide (x.id ∉ used ++ [gc.id]))
          = rest.filter (fun x => decide (x.id ∉ used)) := by
        apply List.filter_congr
        intro x hx
        have hne : x.id ≠ gc.id := by
          intro heq
          exact hgc (heq ▸ List.mem_map_of_mem Client.id hx)
        simp [List.mem_append, hne]
      rw [hfilter]
      simp [List.filter_cons, hmem]

/-- Claim C2 as stated is false: explicit `client_ids` are appended without
deduplication, so the request `client_ids = [A, A]` (client `A` known and
connected, no groups) yields client `A` twice — the output is not
duplicate-free. -/
theorem getOrderedClients_duplicates :
    getOrderedClients envDup ["A", "A"] []
        = Except.ok ([{ id := "A", disconnectedAt := none },
            { id := "A", disconnectedAt := none }], 0) ∧
    ¬ ([{ id := "A", disconnectedAt := none },
        { id := "A", disconnectedAt := none }] : List Client).Nodup := by
  constructor
  · rfl
  · decide

/-- Claim C2 (amended): target resolution fails with bad-request on any
unknown group ID; otherwise with not-found on the first problematic
explicit client ID when it is unknown, and with bad-request when it is
known but disconnected; and on success it returns the explicit clients
first — in request order and with any requested repetition preserved —
followed by the group-derived clients in group-iteration order, skipping
those whose ID already appeared. -/
theorem getOrderedClients_characterization (env : Env) (cids gids : List String) :
    ((∃ g ∈ gids, env.getGroup g = none) →
      getOrderedClients env cids gids = Except.error ApiStatus.badRequest) ∧
    ((∀ g ∈ gids, (env.getGroup g).isSome) →
      (∀ cid, cids.find? (cidBad env) = some cid →
        (env.getClient cid = none →
          getOrderedClients env cids gids = Except.error ApiStatus.notFound) ∧
        (∀ cl, env.getClient cid = some cl →
          getOrderedClients env cids gids = Except.error ApiStatus.badRequest)) ∧
      (cids.find? (cidBad env) = none →
        ((env.getActiveByGroups (gids.filterMap env.getGroup)).map Client.id).Nodup →
        getOrderedClients env cids gids
          = Except.ok (cids.filterMap env.getClient ++
              (env.getActiveByGroups (gids.filterMap env.getGroup)).filter
                (fun gc => decide (gc.id ∉ cids)),
              (env.getActiveByGroups (gids.filterMap env.getGroup)).length))) := by
  constructor
  · intro h
    rw [getOrderedClients, collectGroups_unknown env gids h]
  · intro hknown
    constructor
    · intro cid hfind
      constructor
      · intro hc
        rw [getOrderedClients, collectGroups_known env gids hknown,
          explicitLoop_not_found env cids [] [] cid hfind hc]
      · intro cl hc
        rw [getOrderedClients, collectGroups_known env gids hknown,
          explicitLoop_disconnected env cids [] [] cid cl hfind hc]
    · intro hfind hnd
      simp only [getOrderedClients, collectGroups_known env gids hknown,
        explicitLoop_all_good env cids [] [] hfind, List.nil_append]
      rw [appendGroupClients_eq _ _ _ hnd]

/-- Concrete instance of the amended claim C2: explicit clients `A`, `B`
plus group `g1` contributing `C` and the already-listed `B` resolve to
`[A, B, C]` with a group-client count of 2. -/
theorem getOrderedClients_characterization_witness :
    (∀ g ∈ ["g1"], ((fun g => if g = "g1" then some "g1" else none) g).isSome) ∧
    (["A", "B"].find? (cidBad
      { getGroup := fun g => if g = "g1" then some "g1" else none,
        getClient := fun cid =>
          if cid = "A" then some { id := "A", disconnectedAt := none }
          else if cid = "B" then some { id := "B", disconnectedAt := none }
          else none,
        getActiveByGroups := fun gs =>
          if gs = ["g1"] then
            [{ id := "C", disconnectedAt := none }, { id := "B", disconnectedAt := none }]
          else [] }) = none) ∧
    getOrderedClients
      { getGroup := fun g => if g = "g1" then some "g1" else none,
        getClient := fun cid =>
          if cid = "A" then some { id := "A", disconnectedAt := none }
          else if cid = "B" then some { id := "B", disconnectedAt := none }
          else none,
        getActiveByGroups := fun gs =>
          if gs = ["g1"] then
            [{ id := "C", disconnectedAt := none }, { id := "B", disconnectedAt := none }]
          else [] } ["A", "B"] ["g1"]
      = Except.ok ([{ id := "A", disconnectedAt := none },
          { id := "B", disconnectedAt := none },
          { id := "C", disconnectedAt := none }], 2) := by
  refine ⟨by decide, by decide, ?_⟩
  have h := (getOrderedClients_characterization
    { getGroup := fun g => if g = "g1" then some "g1" else none,
      getClient := fun cid =>
        if cid = "A" then some { id := "A", disconnectedAt := none }
        else if cid = "B" then some { id := "B", disconnectedAt := none }
        else none,
      getActiveByGroups := fun gs =>
        if gs = ["g1"] then
          [{ id := "C", disconnectedAt := none }, { id := "B", disconnectedAt := none }]
        else [] } ["A", "B"] ["g1"]).2 (by decide)
  have h2 := h.2 (by decide) (by decide)
  rw [h2]
  rfl

end OrderedClients

namespace Session

/-- The remote endpoint a tunnel forwards to. `Tunnel.Equals` compares the
remote parameters when `StartTunnel` looks for an existing tunnel; their
precise field set does not affect ID assignment, so they are modelled as
one opaque string. -/
structure Remote where
  spec : String
deriving DecidableEq, Repr

/-- The slice of `Tunnel` relevant to ID assignment. Go stores the ID as
`strconv.FormatInt(id, 10)`; decimal formatting of distinct numbers is
injective, so the numeric value is kept. -/
structure Tunnel where
  id : Nat
  remote : Remote
deriving DecidableEq, Repr

/-- State of `ClientSession` (server/client_session.go, embedded in
api/jobs/jobs_test.go's companion file): the tunnel list and the
`tunnelIDAutoIncrement` counter. -/
structure ClientSession where
  tunnels : List Tunnel
  tunnelIDAutoIncrement : Nat
deriving DecidableEq, Repr

/-- A fresh session: no tunnels, counter at its zero value. -/
def NewClientSession : ClientSession :=
  { tunnels := [], tunnelIDAutoIncrement := 0 }

/-- Embeds `findTunnelByRemote`. -/
def findTunnelByRemote (c : ClientSession) (r : Remote) : Option Tunnel :=
  c.tunnels.find? (fun t => decide (t.remote = r))

/-- Embeds `generateNewTunnelID` (`atomic.AddInt64(&c.tunnelIDAutoIncrement, 1)`
returns the incremented value). -/
def generateNewTunnelID (c : ClientSession) : ClientSession × Nat :=
  ({ c with tunnelIDAutoIncrement := c.tunnelIDAutoIncrement + 1 },
    c.tunnelIDAutoIncrement + 1)

/-- Embeds `StartTunnel`: an existing tunnel with an equal remote is
returned as-is (no new ID); otherwise a fresh ID is generated and, when
`t.Start` succeeds (`startOk`), the tunnel is appended. The second
component is the ID assigned by `generateNewTunnelID`, if any. -/
def StartTunnel (c : ClientSession) (r : Remote) (startOk : Bool) :
    ClientSession × Option Nat :=
  match findTunnelByRemote c r with
  | some _ => (c, none)
  | none =>
    let (c1, id) := generateNewTunnelID c
    if startOk then
      ({ c1 with tunnels := c1.tunnels ++ [{ id := id, remote := r }] }, some id)
    else (c1, some id)

/-- Embeds `removeTunnel` (called by `TerminateTunnel`): rebuild the tunnel
list without the given ID. -/
def removeTunnel (c : ClientSession) (id : Nat) : ClientSession :=
  { c with tunnels := c.tunnels.filter (fun t => decide (t.id ≠ id)) }

/-- One session-lifetime operation: a `StartTunnel` call (with the outcome
of `t.Start`) or a `TerminateTunnel`/`removeTunnel` call. -/
inductive SOp
  | start (r : Remote) (startOk : Bool)
  | remove (id : Nat)
deriving DecidableEq, Repr

/-- Run a sequence of operations, collecting the assigned tunnel IDs in
chronological order. -/
def runOps : ClientSession → List SOp → ClientSession × List Nat
  | c, [] => (c, [])
  | c, SOp.start r ok :: rest =>
    let (c1, assigned) := StartTunnel c r ok
    let (c2, ids) := runOps c1 rest
    (c2, (match assigned with | none => [] | some i => [i]) ++ ids)
  | c, SOp.remove id :: rest => runOps (removeTunnel c id) rest

theorem runOps_ids_above_counter (ops : List SOp) (c : ClientSession) :
    (runOps c ops).2.Pairwise (· < ·) ∧
    ∀ i ∈ (runOps c ops).2, c.tunnelIDAutoIncrement < i := by
  induction ops generalizing c with
  | nil => simp [runOps]
  | cons op rest ih =>
    cases op with
    | remove id =>
      have h := ih (removeTunnel c id)
      simpa [runOps, removeTunnel] using h
    | start r ok =>
      cases hf : findTunnelByRemote c r with
      | some t =>
        have h := ih c
        simp only [runOps, StartTunnel, hf]
        exact ⟨h.1, fun i hi => h.2 i hi⟩
      | none =>
        cases ok with
        | true =>
          have h := ih (ClientSession.mk
            (c.tunnels ++ [Tunnel.mk (c.tunnelIDAutoIncrement + 1) r])
            (c.tunnelIDAutoIncrement + 1))
          simp only [runOps, StartTunnel, hf, generateNewTunnelID, if_true] at h ⊢
          constructor
          · refine List.pairwise_cons.mpr ⟨?_, h.1⟩
            intro i hi
            have := h.2 i hi
            omega
          · intro i hi
            rcases List.mem_cons.mp hi with rfl | hi'
            · omega
            · have := h.2 i hi'
              omega
        | false =>
          have h := ih (ClientSession.mk c.tunnels (c.tunnelIDAutoIncrement + 1))
          simp only [runOps, StartTunnel, hf, generateNewTunnelID, if_false] at h ⊢
          constructor
          · refine List.pairwise_cons.mpr ⟨?_, h.1⟩
            intro i hi
            have := h.2 i hi
            omega
          · intro i hi
            rcases List.mem_cons.mp hi with rfl | hi'
            · omega
            · have := h.2 i hi'
              omega

/-- Claim C9: over any sequence of tunnel creations and removals in one
client session, the assigned tunnel IDs are strictly increasing in
chronological order (each new ID exceeds every previously assigned one)
and are never reused, even after the tunnel with that ID is removed. -/
theorem tunnel_ids_strictly_increasing (ops : List SOp) :
    (runOps NewClientSession ops).2.Pairwise (· < ·) ∧
    (runOps NewClientSession ops).2.Nodup := by
  have h := runOps_ids_above_counter ops NewClientSession
  exact ⟨h.1, h.1.imp Nat.ne_of_lt⟩

end Session

namespace JobStore

/-- Modelled from the spec: the job-store subset of the persisted Job row
(spec section 3) that `save_job` / `create_job` / `get_by_jid` /
`get_by_multi_job_id` key on — the SQLite provider
(server/api/jobs/sqlite.go) is not part of the analysed sources, only its
tests are. -/
structure Job where
  jid : String
  clientID : String
  multiJobID : Option String
  status : Dispatcher.JobStatus
  startedAt : Nat
  finishedAt : Option Nat
deriving DecidableEq, Repr

/-- Modelled from the spec: `save_job(job)` is create-or-update — the row
with the same `jid` is overwritten (upsert). The store is the list of
rows. -/
def SaveJob (st : List Job) (j : Job) : List Job :=
  st.filter (fun r => decide (r.jid ≠ j.jid)) ++ [j]

/-- Modelled from the spec: `create_job(job)` is create-if-absent — a
duplicate `jid` leaves the stored row intact and reports no error. -/
def CreateJob (st : List Job) (j : Job) : List Job :=
  if st.any (fun r => decide (r.jid = j.jid)) then st else st ++ [j]

/-- Modelled from the spec: `get_by_jid(client_id, jid)`. -/
def GetByJID (st : List Job) (clientID jid : String) : Option Job :=
  st.find? (fun r => decide (r.clientID = clientID ∧ r.jid = jid))

/-- Formalization of claim C4's words, not of source code: strict
comparison of `finished_at` values with NULL smallest. Kept only to state
the refutation of the claimed ordering law; the NULL convention is
irrelevant there, since the refuting pair has both values non-NULL. -/
def claimedFinLT : Option Nat → Option Nat → Bool
  | none, none => false
  | none, some _ => true
  | some _, none => false
  | some x, some y => decide (x < y)

/-- Formalization of claim C4's words, not of source code: the row order
the claim asserts for `get_by_multi_job_id` — `finished_at` descending,
then `started_at` ascending, then `jid` ascending. -/
def claimedOrderLE (a b : Job) : Bool :=
  claimedFinLT b.finishedAt a.finishedAt ||
  (decide (b.finishedAt = a.finishedAt) &&
    (decide (a.startedAt < b.startedAt) ||
     (decide (a.startedAt = b.startedAt) && decide (a.jid ≤ b.jid))))

/-- Modelled from the spec and the in-src test evidence: the provider's
`get_by_multi_job_id` selects the rows with the given `multi_job_id` and
hands them to the backend's `ORDER BY` — an order-only transformation that
is kept parametric, because the spec's asserted sort law is contradicted
by the repository's own `TestGetByMultiJobID`, so only the selection is
pinned down. -/
def GetByMultiJobIDWith (order : List Job → List Job) (st : List Job)
    (mjid : String) : List Job :=
  order (st.filter (fun r => decide (r.multiJobID = some mjid)))

/-- `job3` of `TestGetByMultiJobID` (jobs_test.go:103): jid `1111`,
`finished_at = t1`, with `t1` rendered as 10000 seconds. -/
def testJob3 : Job :=
  { jid := "1111", clientID := "c3", multiJobID := some "1234",
    status := Dispatcher.JobStatus.successful, startedAt := 5000,
    finishedAt := some 10000 }

/-- `job4` of `TestGetByMultiJobID` (jobs_test.go:104): jid `2222`,
status running (no finish time). -/
def testJob4 : Job :=
  { jid := "2222", clientID := "c4", multiJobID := some "1234",
    status := Dispatcher.JobStatus.running, startedAt := 5000,
    finishedAt := none }

/-- `job5` of `TestGetByMultiJobID` (jobs_test.go:105): jid `3333`,
`started_at = job3.started_at + 1s`, `finished_at = t1 − 1h`
(here 10000 − 3600). -/
def testJob5 : Job :=
  { jid := "3333", clientID := "c5", multiJobID := some "1234",
    status := Dispatcher.JobStatus.failed, startedAt := 5001,
    finishedAt := some 6400 }

theorem find?_append_none {α : Type} (p : α → Bool) (l1 l2 : List α)
    (h : l1.find? p = none) : (l1 ++ l2).find? p = l2.find? p := by
  induction l1 with
  | nil => rfl
  | cons x t ih =>
    rw [List.find?_cons] at h
    cases hp : p x with
    | true => rw [hp] at h; cases h
    | false =>
      rw [hp] at h
      rw [List.cons_append, List.find?_cons, hp]
      exact ih h

theorem GetByJID_SaveJob (st : List Job) (j : Job) :
    GetByJID (SaveJob st j) j.clientID j.jid = some j := by
  rw [GetByJID, SaveJob]
  rw [find?_append_none]
  · simp
  · rw [List.find?_eq_none]
    intro r hr
    have := List.of_mem_filter hr
    simp only [decide_eq_true_eq] at this
    simp [this]

/-- Claim C3: `create_job` is idempotent in `jid` — after `save_job j1`, a
`create_job j1'` with the same `jid` (even if the records differ) reports
no error and leaves the stored row `j1` intact; `save_job`, by contrast,
upserts: a second `save_job j1'` overwrites the row. (Errors are not
modelled: both operations always succeed, as the spec requires for the
duplicate-`jid` create.) -/
theorem create_job_idempotent (st : List Job) (j1 j1' : Job)
    (hjid : j1'.jid = j1.jid) :
    GetByJID (CreateJob (SaveJob st j1) j1') j1.clientID j1.jid = some j1 ∧
    GetByJID (SaveJob (SaveJob st j1) j1') j1'.clientID j1'.jid = some j1' := by
  constructor
  · have hdup : (SaveJob st j1).any (fun r => decide (r.jid = j1'.jid)) = true := by
      rw [List.any_eq_true]
      refine ⟨j1, ?_, by simp [hjid]⟩
      simp [SaveJob]
    rw [CreateJob, if_pos hdup]
    exact GetByJID_SaveJob st j1
  · exact GetByJID_SaveJob (SaveJob st j1) j1'

/-- Concrete instance of claim C3's theorem: saving a successful job and
then re-creating it with status running keeps the stored status
successful. -/
theorem create_job_idempotent_witness :
    (Job.mk "j1" "c1" none Dispatcher.JobStatus.running 1 none).jid
        = (Job.mk "j1" "c1" none Dispatcher.JobStatus.successful 1 (some 5)).jid ∧
    GetByJID (CreateJob (SaveJob []
        (Job.mk "j1" "c1" none Dispatcher.JobStatus.successful 1 (some 5)))
        (Job.mk "j1" "c1" none Dispatcher.JobStatus.running 1 none)) "c1" "j1"
      = some (Job.mk "j1" "c1" none Dispatcher.JobStatus.successful 1 (some 5)) ∧
    GetByJID (SaveJob (SaveJob []
        (Job.mk "j1" "c1" none Dispatcher.JobStatus.successful 1 (some 5)))
        (Job.mk "j1" "c1" none Dispatcher.JobStatus.running 1 none)) "c1" "j1"
      = some (Job.mk "j1" "c1" none Dispatcher.JobStatus.running 1 none) :=
  ⟨by decide,
    (create_job_idempotent []
      (Job.mk "j1" "c1" none Dispatcher.JobStatus.successful 1 (some 5))
      (Job.mk "j1" "c1" none Dispatcher.JobStatus.running 1 none) (by decide)).1,
    (create_job_idempotent []
      (Job.mk "j1" "c1" none Dispatcher.JobStatus.successful 1 (some 5))
      (Job.mk "j1" "c1" none Dispatcher.JobStatus.running 1 none) (by decide)).2⟩

/-- Claim C4 as stated is false on the repository's own evidence: its cited
source, `TestGetByMultiJobID` (server/api/jobs/jobs_test.go:93-118),
persists `job3` with `finished_at = t1` and `job5` with
`finished_at = t1 − 1h` (both non-NULL, so any NULL convention agrees) and
asserts that `get_by_multi_job_id` returns `[job5, job3, job4]`. Under the
claimed law — `finished_at` descending first — the later-finished `job3`
must precede `job5` whatever the builder defaults, so the test-mandated
output is not sorted by that law: `claimedOrderLE testJob5 testJob3` is
false and the mandated output fails the pairwise law. -/
theorem get_by_multi_job_id_order_refuted :
    claimedOrderLE testJob3 testJob5 = true ∧
    claimedOrderLE testJob5 testJob3 = false ∧
    ¬ List.Pairwise (fun a b => claimedOrderLE a b = true)
        [testJob5, testJob3, testJob4] := by
  decide

/-- Claim C4 (amended): `get_by_multi_job_id(mjid)` returns exactly the
persisted jobs whose `multi_job_id` is `mjid` — a permutation of them:
each exactly once, nothing else — for every order-only backend sort. The
particular order is not the claimed finished_at-descending law (the
repository's own test refutes it), so it is left as the backend's
`ORDER BY`. -/
theorem get_by_multi_job_id_membership (order : List Job → List Job)
    (st : List Job) (mjid : String)
    (horder : ∀ l : List Job, List.Perm (order l) l) :
    List.Perm (GetByMultiJobIDWith order st mjid)
        (st.filter (fun r => decide (r.multiJobID = some mjid))) ∧
    (∀ j, j ∈ GetByMultiJobIDWith order st mjid ↔
      (j ∈ st ∧ j.multiJobID = some mjid)) := by
  constructor
  · exact horder _
  · intro j
    rw [GetByMultiJobIDWith, List.Perm.mem_iff (horder _)]
    simp [List.mem_filter]

/-- Concrete instance of the amended claim C4: with the reversing backend
sort and the test's three children plus an unrelated job, the result is a
permutation of exactly the `multi_job_id = 1234` rows. -/
theorem get_by_multi_job_id_membership_witness :
    (∀ l : List Job, List.Perm (List.reverse l) l) ∧
    List.Perm (GetByMultiJobIDWith List.reverse
        [testJob3, testJob4, testJob5,
          Job.mk "j9" "c9" none Dispatcher.JobStatus.successful 1 none] "1234")
        ([testJob3, testJob4, testJob5,
          Job.mk "j9" "c9" none Dispatcher.JobStatus.successful 1 none].filter
          (fun r => decide (r.multiJobID = some "1234"))) ∧
    (∀ j, j ∈ GetByMultiJobIDWith List.reverse
        [testJob3, testJob4, testJob5,
          Job.mk "j9" "c9" none Dispatcher.JobStatus.successful 1 none] "1234" ↔
      (j ∈ [testJob3, testJob4, testJob5,
          Job.mk "j9" "c9" none Dispatcher.JobStatus.successful 1 none] ∧
        j.multiJobID = some "1234")) :=
  ⟨fun l => List.reverse_perm l,
    (get_by_multi_job_id_membership List.reverse
      [testJob3, testJob4, testJob5,
        Job.mk "j9" "c9" none Dispatcher.JobStatus.successful 1 none] "1234"
      (fun l => List.reverse_perm l)).1,
    (get_by_multi_job_id_membership List.reverse
      [testJob3, testJob4, testJob5,
        Job.mk "j9" "c9" none Dispatcher.JobStatus.successful 1 none] "1234"
      (fun l => List.reverse_perm l)).2⟩

end JobStore

namespace Query

/-- Modelled from the spec: the filter-operator abstraction
(column/op/values); its `Code` is the SQL comparison token, `=` for the
default equality operator, as exercised by share/query/convert_test.go
(the file defining `FilterOperatorType` is not among the analysed
sources). -/
inductive FilterOperatorType
  | eq
  | gt
  | lt
deriving DecidableEq, Repr

/-- The SQL token of an operator (`FilterOperatorType.Code`). -/
def FilterOperatorType.Code : FilterOperatorType → String
  | .eq => "="
  | .gt => ">"
  | .lt => "<"

/-- Embeds `query.FilterOption`. -/
structure FilterOption where
  column : String
  operator : FilterOperatorType
  values : List String
deriving DecidableEq, Repr

/-- Embeds `query.SortOption`. -/
structure SortOption where
  column : String
  isASC : Bool
deriving DecidableEq, Repr

/-- Embeds `query.FieldsOption`. -/
structure FieldsOption where
  resource : String
  fields : List String
deriving DecidableEq, Repr

/-- Embeds `query.ListOptions` (the pagination field is carried but, as in
share/query/convert.go, not consulted by `ConvertListOptionsToQuery`). -/
structure ListOptions where
  sorts : List SortOption
  filters : List FilterOption
  fields : List FieldsOption
  pagination : Option (String × String)
deriving DecidableEq, Repr

/-- Prefix test on character lists (`strings.HasPrefix`). -/
def listIsPrefix : List Char → List Char → Bool
  | [], _ => true
  | _ :: _, [] => false
  | p :: ps, c :: cs => decide (p = c) && listIsPrefix ps cs

/-- Substring test (`strings.Contains`). -/
def containsSub (pat : List Char) : List Char → Bool
  | [] => listIsPrefix pat []
  | c :: t => listIsPrefix pat (c :: t) || containsSub pat t

/-- First-occurrence replacement (`strings.Replace(s, pat, rep, 1)`;
faithful for the nonempty patterns used here). -/
def replaceFirst (pat rep : List Char) : List Char → List Char
  | [] => []
  | c :: t =>
    if listIsPrefix pat (c :: t) then rep ++ (c :: t).drop pat.length
    else c :: replaceFirst pat rep t

/-- `strings.ToUpper` (the queries here are ASCII). -/
def goToUpper (s : String) : String := String.mk (s.data.map Char.toUpper)

/-- `strings.Contains`. -/
def goContains (s sub : String) : Bool := containsSub sub.data s.data

/-- `strings.HasPrefix`. -/
def goHasPrefix (s pre : String) : Bool := listIsPrefix pre.data s.data

/-- `strings.Replace(s, pat, rep, 1)`. -/
def goReplaceFirst (s pat rep : String) : String :=
  String.mk (replaceFirst pat.data rep.data s.data)

/-- `strings.Join`. -/
def goJoin (sep : String) : List String → String
  | [] => ""
  | [x] => x
  | x :: xs => x ++ sep ++ goJoin sep xs

/-- One `whereParts` entry of `addWhere`: `"%s %s ?"` for a single value,
a parenthesised `OR` of such pieces otherwise. -/
def wherePart (fo : FilterOption) : String :=
  if fo.values.length = 1 then fo.column ++ " " ++ fo.operator.Code ++ " ?"
  else "(" ++
    goJoin " OR " (fo.values.map (fun _ => fo.column ++ " " ++ fo.operator.Code ++ " ?"))
    ++ ")"

/-- Embeds `addWhere` of share/query/convert.go: build the `WHERE`
(or `AND`, when the query already has a `WHERE`) clause and collect every
filter value, in order, as a parameter bind. -/
def addWhere (filterOptions : List FilterOption) (q : String) : String × List String :=
  if filterOptions.length = 0 then (q, [])
  else
    let whereParts := filterOptions.map wherePart
    let params := (filterOptions.map (fun fo => fo.values)).join
    let concat := if goContains (goToUpper q) " WHERE " then " AND " else " WHERE "
    (q ++ concat ++ goJoin " AND " whereParts ++ " ", params)

/-- Embeds `addOrderBy` of share/query/convert.go. -/
def addOrderBy (sortOptions : List SortOption) (q : String) : String :=
  if sortOptions.length = 0 then q
  else
    let orderByValues := sortOptions.map
      (fun so => so.column ++ " " ++ (if so.isASC then "ASC" else "DESC"))
    q ++ "ORDER BY " ++ goJoin ", " orderByValues

/-- Embeds `ReplaceStarSelect` of share/query/convert.go. -/
def ReplaceStarSelect (fieldOptions : List FieldsOption) (q : String) : String :=
  if ¬ goHasPrefix (goToUpper q) "SELECT * " then q
  else if fieldOptions.length = 0 then q
  else
    let fields := (fieldOptions.map
      (fun fo => fo.fields.map (fun field => fo.resource ++ "." ++ field))).join
    goReplaceFirst q "*" (goJoin ", " fields)

/-- Embeds `ConvertListOptionsToQuery` of share/query/convert.go. -/
def ConvertListOptionsToQuery (lo : ListOptions) (q : String) : String × List String :=
  let wp := addWhere lo.filters q
  let q2 := addOrderBy lo.sorts wp.1
  let q3 := ReplaceStarSelect lo.fields q2
  (q3, wp.2)

/-- The list options of claim C8: `field1 ∈ {val1,val2,val3}`,
`field2 = value2`, sorts `field1 asc, field2 desc`, fields
`res1.{field1,field2}`. -/
def testOptions : ListOptions :=
  { sorts := [{ column := "field1", isASC := true }, { column := "field2", isASC := false }],
    filters := [{ column := "field1", operator := FilterOperatorType.eq,
                  values := ["val1", "val2", "val3"] },
                { column := "field2", operator := FilterOperatorType.eq,
                  values := ["value2"] }],
    fields := [{ resource := "res1", fields := ["field1", "field2"] }],
    pagination := none }

/-- Claim C8: the translation of the claim's list options against
`SELECT * FROM res1` yields exactly the claimed SQL text — every filter
value a `?` bind, never spliced — with the binds
`["val1","val2","val3","value2"]` in that order. -/
theorem convert_list_options_query :
    ConvertListOptionsToQuery testOptions "SELECT * FROM res1"
      = ("SELECT res1.field1, res1.field2 FROM res1 WHERE (field1 = ? OR field1 = ? OR field1 = ?) AND field2 = ? ORDER BY field1 ASC, field2 DESC",
         ["val1", "val2", "val3", "value2"]) := by
  decide

end Query

namespace ACL

/-- `strings.Split` for a one-character separator, on character lists. -/
def splitOnChar (sep : Char) : List Char → List (List Char)
  | [] => [[]]
  | c :: t =>
    if c = sep then [] :: splitOnChar sep t
    else
      match splitOnChar sep t with
      | [] => [[c]]
      | h :: r => (c :: h) :: r

/-- Split at the first occurrence of a character (`net.ParseCIDR` splits
the input at the first `/`). -/
def splitFirst (sep : Char) : List Char → Option (List Char × List Char)
  | [] => none
  | c :: t =>
    if c = sep then some ([], t)
    else
      match splitFirst sep t with
      | none => none
      | some (a, b) => some (c :: a, b)

/-- Numeric value of a decimal digit character. -/
def digitVal (c : Char) : Nat := c.toNat - 48

/-- One dotted-quad field as accepted by Go 1.17's `parseIPv4`/`dtoi`:
nonempty, all decimal digits, no leading zero, value at most 255. -/
def parseOctet (f : List Char) : Option Nat :=
  if f.isEmpty then none
  else if ¬ f.all Char.isDigit then none
  else if f.head? = some '0' ∧ f.length > 1 then none
  else
    let v := f.foldl (fun a c => a * 10 + digitVal c) 0
    if v ≤ 255 then some v else none

/-- Embeds Go's `parseIPv4` on the address part: four `.`-separated octet
fields, combined into the 32-bit value. -/
def parseIPv4 (s : List Char) : Option Nat :=
  match splitOnChar '.' s with
  | [a, b, c, d] =>
    match parseOctet a, parseOctet b, parseOctet c, parseOctet d with
    | some va, some vb, some vc, some vd =>
      some (((va * 256 + vb) * 256 + vc) * 256 + vd)
    | _, _, _, _ => none
  | _ => none

/-- The mask part of a CIDR as accepted by `net.ParseCIDR` (`dtoi` over the
whole suffix, at most 32 for IPv4; leading zeros are tolerated there). -/
def parseMaskBits (m : List Char) : Option Nat :=
  if m.isEmpty then none
  else if ¬ m.all Char.isDigit then none
  else
    let v := m.foldl (fun a c => a * 10 + digitVal c) 0
    if v ≤ 32 then some v else none

/-- The 32-bit netmask of `net.CIDRMask(p, 32)` as a natural number: the
high `p` bits set. -/
def maskOfBits (p : Nat) : Nat := 2 ^ 32 - 2 ^ (32 - p)

/-- Embeds `net.IPNet` for IPv4: the (already masked, in the `ParseCIDR`
path) network address and the mask width. -/
structure IPNet where
  ip : Nat
  maskBits : Nat
deriving DecidableEq, Repr

/-- Embeds `net.IPNet.Contains`: byte-wise `ip & mask == network & mask`,
expressed on the 32-bit values. -/
def IPNet.contains (n : IPNet) (x : Nat) : Bool :=
  decide (x &&& maskOfBits n.maskBits = n.ip &&& maskOfBits n.maskBits)

/-- Embeds `net.ParseCIDR` for IPv4: split at the first `/`, parse the
dotted quad and the mask width. Returns the unmasked address and the mask
width (the caller receives the masked network via `parseIPNet`). -/
def parseCIDR (s : List Char) : Option (Nat × Nat) :=
  match splitFirst '/' s with
  | none => none
  | some (addr, mask) =>
    match parseIPv4 addr, parseMaskBits mask with
    | some ip, some p => some (ip, p)
    | _, _ => none

/-- Embeds `parseIPNet` of server/clients/tunnel_acl.go: with a `/` the
entry is parsed by `ParseCIDR` (the stored network is the masked address);
without one by `ParseIP` with an implicit `/32`. `0.0.0.0` is rejected;
non-IPv4 input fails to parse. -/
def parseIPNet (s : List Char) : Option IPNet :=
  if '/' ∈ s then
    match parseCIDR s with
    | none => none
    | some (ip, p) =>
      if ip = 0 then none
      else some { ip := ip &&& maskOfBits p, maskBits := p }
  else
    match parseIPv4 s with
    | none => none
    | some ip => if ip = 0 then none else some { ip := ip, maskBits := 32 }

/-- Embeds `TunnelACL` of server/clients/tunnel_acl.go. -/
structure TunnelACL where
  allowedIPs : List IPNet
deriving DecidableEq, Repr

/-- Embeds `TunnelACL.CheckAccess`: an empty list allows everyone,
otherwise any entry must contain the IP. -/
def CheckAccess (a : TunnelACL) (ip : Nat) : Bool :=
  if a.allowedIPs.length = 0 then true
  else a.allowedIPs.any (fun n => n.contains ip)

/-- The entry loop of `ParseTunnelACL`: parse every comma-separated entry,
failing on the first invalid one. -/
def parseEntries : List (List Char) → Option (List IPNet)
  | [] => some []
  | e :: t =>
    match parseIPNet e with
    | none => none
    | some n =>
      match parseEntries t with
      | none => none
      | some r => some (n :: r)

/-- Embeds `ParseTunnelACL` of server/clients/tunnel_acl.go. The outer
`Option` is the error result (`none` = parse error); the inner one is the
returned pointer (`none` = Go's `nil, nil` for the empty string — the
allow-all sentinel). -/
def ParseTunnelACL (s : List Char) : Option (Option TunnelACL) :=
  if s.isEmpty then some none
  else
    match parseEntries (splitOnChar ',' s) with
    | none => none
    | some nets => some (some { allowedIPs := nets })

/-- How tunnel-accept treats the parsed ACL: a `nil` ACL checks nothing
(allow-all); otherwise `CheckAccess` decides. -/
def aclAllows : Option TunnelACL → Nat → Bool
  | none, _ => true
  | some a, ip => CheckAccess a ip

/-- Spec-side validity of one ACL entry, from the claim's words: a dotted
quad with an optional `/` mask width of at most 32, excluding `0.0.0.0`. -/
def validCIDRStr (e : List Char) : Bool :=
  match splitOnChar '/' e with
  | [q] =>
    match parseIPv4 q with
    | some ip => decide (ip ≠ 0)
    | none => false
  | [q, m] =>
    match parseIPv4 q, parseMaskBits m with
    | some ip, some _ => decide (ip ≠ 0)
    | _, _ => false
  | _ => false

/-- Spec-side containment of an IPv4 address in one CIDR entry: the top
`p` bits (the whole address for a bare entry) coincide. -/
def cidrContains (e : List Char) (x : Nat) : Bool :=
  match splitOnChar '/' e with
  | [q] =>
    match parseIPv4 q with
    | some ip => decide (x = ip)
    | none => false
  | [q, m] =>
    match parseIPv4 q, parseMaskBits m with
    | some ip, some p => decide (x / 2 ^ (32 - p) = ip / 2 ^ (32 - p))
    | _, _ => false
  | _ => false

theorem splitOnChar_ne_nil (sep : Char) (s : List Char) : splitOnChar sep s ≠ [] := by
  induction s with
  | nil => simp [splitOnChar]
  | cons c t ih =>
    rw [splitOnChar]
    by_cases hc : c = sep
    · simp [hc]
    · simp only [hc, if_false]
      cases h : splitOnChar sep t with
      | nil => simp
      | cons hd tl => simp

theorem splitOnChar_single (sep : Char) (s q : List Char)
    (h : splitOnChar sep s = [q]) : s = q ∧ sep ∉ s := by
  induction s generalizing q with
  | nil =>
    rw [splitOnChar] at h
    have hq : q = [] := by simpa using h.symm
    subst hq
    simp
  | cons c t ih =>
    rw [splitOnChar] at h
    by_cases hc : c = sep
    · rw [if_pos hc] at h
      have hlen := congrArg List.length h
      simp at hlen
      exact absurd hlen (splitOnChar_ne_nil sep t)
    · rw [if_neg hc] at h
      cases hsp : splitOnChar sep t with
      | nil => exact absurd hsp (splitOnChar_ne_nil sep t)
      | cons hd tl =>
        rw [hsp] at h
        have hq : c :: hd = q ∧ tl = [] := by
          constructor
          · exact (List.cons.injEq _ _ _ _ ▸ h).1
          · exact (List.cons.injEq _ _ _ _ ▸ h).2
        obtain ⟨hq1, hq2⟩ := hq
        subst hq2
        obtain ⟨ht, hsep⟩ := ih hd hsp
        constructor
        · rw [← hq1, ht]
        · intro hmem
          rcases List.mem_cons.mp hmem with h1 | h1
          · exact hc h1.symm
          · exact hsep h1

theorem splitOnChar_pair (sep : Char) (s : List Char) (q m : List Char)
    (h : splitOnChar sep s = [q, m]) :
    sep ∈ s ∧ splitFirst sep s = some (q, m) := by
  induction s generalizing q with
  | nil =>
    rw [splitOnChar] at h
    have := congrArg List.length h
    simp at this
  | cons c t ih =>
    rw [splitOnChar] at h
    by_cases hc : c = sep
    · rw [if_pos hc] at h
      have hq : ([] : List Char) = q ∧ splitOnChar sep t = [m] := by
        constructor
        · exact (List.cons.injEq _ _ _ _ ▸ h).1
        · exact (List.cons.injEq _ _ _ _ ▸ h).2
      obtain ⟨hq1, hrest⟩ := hq
      obtain ⟨ht, _⟩ := splitOnChar_single sep t m hrest
      subst hc
      constructor
      · exact List.mem_cons_self c t
      · rw [splitFirst, if_pos rfl, ht, ← hq1]
    · rw [if_neg hc] at h
      cases hsp : splitOnChar sep t with
      | nil => exact absurd hsp (splitOnChar_ne_nil sep t)
      | cons hd tl =>
        rw [hsp] at h
        have hq : c :: hd = q ∧ tl = [m] := by
          constructor
          · exact (List.cons.injEq _ _ _ _ ▸ h).1
          · exact (List.cons.injEq _ _ _ _ ▸ h).2
        obtain ⟨hq1, hq2⟩ := hq
        subst hq2
        obtain ⟨hmem, hsf⟩ := ih hd hsp
        constructor
        · exact List.mem_cons_of_mem c hmem
        · simp only [splitFirst, if_neg hc, hsf]
          rw [hq1]

theorem parseOctet_le (f : List Char) (v : Nat) (h : parseOctet f = some v) :
    v ≤ 255 := by
  rw [parseOctet] at h
  split at h
  · cases h
  · split at h
    · cases h
    · split at h
      · cases h
      · dsimp only at h
        split at h
        · injection h with h
          omega
        · cases h

theorem parseIPv4_lt (s : List Char) (ip : Nat) (h : parseIPv4 s = some ip) :
    ip < 2 ^ 32 := by
  rw [parseIPv4] at h
  split at h
  · rename_i a b c d hsplit
    cases ha : parseOctet a <;> cases hb : parseOctet b <;>
      cases hc : parseOctet c <;> cases hd : parseOctet d <;>
      rw [ha, hb, hc, hd] at h <;> try cases h
    rename_i va vb vc vd
    have h1 := parseOctet_le a va ha
    have h2 := parseOctet_le b vb hb
    have h3 := parseOctet_le c vc hc
    have h4 := parseOctet_le d vd hd
    have h32 : (2 : Nat) ^ 32 = 4294967296 := by norm_num
    rw [h32]
    omega
  · cases h

theorem parseMaskBits_le (m : List Char) (p : Nat) (h : parseMaskBits m = some p) :
    p ≤ 32 := by
  rw [parseMaskBits] at h
  split at h
  · cases h
  · split at h
    · cases h
    · dsimp only at h
      split at h
      · injection h with h
        omega
      · cases h

theorem maskOfBits_eq_shift (p : Nat) (hp : p ≤ 32) :
    maskOfBits p = (2 ^ p - 1) <<< (32 - p) := by
  rw [Nat.shiftLeft_eq, maskOfBits]
  have h32 : (2 : Nat) ^ 32 = 2 ^ p * 2 ^ (32 - p) := by
    rw [← pow_add]
    congr 1
    omega
  rw [h32, Nat.sub_mul, one_mul]

theorem land_mask_eq (x p : Nat) (hx : x < 2 ^ 32) (hp : p ≤ 32) :
    x &&& maskOfBits p = x / 2 ^ (32 - p) * 2 ^ (32 - p) := by
  have hdiv : x / 2 ^ (32 - p) * 2 ^ (32 - p) = (x >>> (32 - p)) <<< (32 - p) := by
    rw [Nat.shiftLeft_eq, Nat.shiftRight_eq_div_pow]
  rw [maskOfBits_eq_shift p hp, hdiv]
  apply Nat.eq_of_testBit_eq
  intro i
  simp only [Nat.testBit_and, Nat.testBit_shiftLeft, Nat.testBit_shiftRight,
    Nat.testBit_two_pow_sub_one]
  by_cases h1 : 32 - p ≤ i
  · by_cases h2 : i < 32
    · have heq : 32 - p + (i - (32 - p)) = i := by omega
      have hlt : i - (32 - p) < p := by omega
      simp [h1, hlt, heq]
    · have hxi : Nat.testBit x i = false := by
        apply Nat.testBit_lt_two_pow
        calc x < 2 ^ 32 := hx
          _ ≤ 2 ^ i := Nat.pow_le_pow_right (by norm_num) (by omega)
      have hge : ¬ (i - (32 - p) < p) := by omega
      simp [h1, hge, hxi]
  · simp [h1]

theorem land_mask_eq_iff (x y p : Nat) (hx : x < 2 ^ 32) (hy : y < 2 ^ 32)
    (hp : p ≤ 32) :
    (x &&& maskOfBits p = y &&& maskOfBits p) ↔
      x / 2 ^ (32 - p) = y / 2 ^ (32 - p) := by
  rw [land_mask_eq x p hx hp, land_mask_eq y p hy hp]
  constructor
  · intro h
    exact Nat.eq_of_mul_eq_mul_right (Nat.pos_pow_of_pos _ (by norm_num)) h
  · intro h
    rw [h]

theorem land_mask_idem (y p : Nat) :
    (y &&& maskOfBits p) &&& maskOfBits p = y &&& maskOfBits p := by
  rw [Nat.land_assoc]
  congr 1
  apply Nat.eq_of_testBit_eq
  intro i
  simp [Nat.testBit_and]

theorem land_full_mask (x : Nat) (hx : x < 2 ^ 32) :
    x &&& maskOfBits 32 = x := by
  rw [land_mask_eq x 32 hx (le_refl 32)]
  simp

theorem parseIPNet_valid (e : List Char) (x : Nat) (hx : x < 2 ^ 32)
    (hval : validCIDRStr e = true) :
    ∃ n, parseIPNet e = some n ∧ n.contains x = cidrContains e x := by
  rw [validCIDRStr] at hval
  cases hsplit : splitOnChar '/' e with
  | nil => rw [hsplit] at hval; simp at hval
  | cons q tail =>
    cases tail with
    | nil =>
      rw [hsplit] at hval
      cases hip : parseIPv4 q with
      | none => simp only [hip] at hval; cases hval
      | some ip =>
        simp only [hip] at hval
        have hip0 : ip ≠ 0 := by simpa using hval
        obtain ⟨hq, hnmem⟩ := splitOnChar_single '/' e q hsplit
        subst hq
        refine ⟨{ ip := ip, maskBits := 32 }, ?_, ?_⟩
        · rw [parseIPNet, if_neg hnmem, hip]
          simp only [hip0, if_neg, if_false]
        · simp only [cidrContains, hsplit, hip]
          rw [IPNet.contains]
          have hiplt := parseIPv4_lt e ip hip
          rw [land_full_mask x hx, land_full_mask ip hiplt]
    | cons m tail2 =>
      cases tail2 with
      | cons m2 tail3 => rw [hsplit] at hval; simp at hval
      | nil =>
        rw [hsplit] at hval
        cases hip : parseIPv4 q with
        | none => simp only [hip] at hval; cases hval
        | some ip =>
          cases hmb : parseMaskBits m with
          | none => simp only [hip, hmb] at hval; cases hval
          | some p =>
            simp only [hip, hmb] at hval
            have hip0 : ip ≠ 0 := by simpa using hval
            obtain ⟨hmem, hsf⟩ := splitOnChar_pair '/' e q m hsplit
            have hcidr : parseCIDR e = some (ip, p) := by
              rw [parseCIDR, hsf]
              simp only [hip, hmb]
            refine ⟨{ ip := ip &&& maskOfBits p, maskBits := p }, ?_, ?_⟩
            · rw [parseIPNet, if_pos hmem, hcidr]
              simp only [hip0, if_neg, if_false]
            · simp only [cidrContains, hsplit, hip, hmb]
              rw [IPNet.contains]
              have hiplt := parseIPv4_lt q ip hip
              have hple := parseMaskBits_le m p hmb
              simp only [land_mask_idem]
              rw [decide_eq_decide]
              exact land_mask_eq_iff x ip p hx hiplt hple

theorem parseEntries_valid (es : List (List Char)) (x : Nat) (hx : x < 2 ^ 32)
    (h : ∀ e ∈ es, validCIDRStr e = true) :
    ∃ nets, parseEntries es = some nets ∧ nets.length = es.length ∧
      nets.any (fun n => n.contains x) = es.any (fun e => cidrContains e x) := by
  induction es with
  | nil => exact ⟨[], rfl, rfl, rfl⟩
  | cons e t ih =>
    obtain ⟨n, hn, hc⟩ :=
      parseIPNet_valid e x hx (h e (List.mem_cons_self e t))
    obtain ⟨nets, hnets, hlen, hany⟩ :=
      ih (fun e' he' => h e' (List.mem_cons_of_mem e he'))
    refine ⟨n :: nets, ?_, ?_, ?_⟩
    · rw [parseEntries, hn, hnets]
    · simp [hlen]
    · simp only [List.any_cons, hc, hany]

/-- Claim C6: for every nonempty ACL string whose comma-separated entries
are all valid IPv4 CIDRs (dotted quad, optional `/maskbits`, not
`0.0.0.0`), `ParseTunnelACL` succeeds and the resulting ACL's check
answers true exactly when the IP lies in some listed CIDR; and for the
empty string the parse returns the nil sentinel, whose check allows every
IP. -/
theorem tunnel_acl_correct (s : List Char) (x : Nat) (hx : x < 2 ^ 32)
    (hne : s ≠ []) (hval : ∀ e ∈ splitOnChar ',' s, validCIDRStr e = true) :
    (∃ acl, ParseTunnelACL s = some (some acl) ∧
      (CheckAccess acl x = true ↔
        ∃ e ∈ splitOnChar ',' s, cidrContains e x = true)) ∧
    ParseTunnelACL [] = some none ∧ (∀ y, aclAllows none y = true) := by
  refine ⟨?_, rfl, fun y => rfl⟩
  obtain ⟨nets, hp, hlen, hany⟩ := parseEntries_valid (splitOnChar ',' s) x hx hval
  refine ⟨{ allowedIPs := nets }, ?_, ?_⟩
  · have hemp : s.isEmpty = false := by
      cases s with
      | nil => exact absurd rfl hne
      | cons c t => rfl
    rw [ParseTunnelACL, hemp]
    simp only [Bool.false_eq_true, if_false, hp]
  · rw [CheckAccess]
    have hnnil : nets.length ≠ 0 := by
      rw [hlen]
      intro h0
      exact splitOnChar_ne_nil ',' s (List.length_eq_zero.mp h0)
    rw [if_neg hnnil, hany, List.any_eq_true]

/-- Concrete instance of claim C6's theorem: the ACL
`10.0.0.1,10.0.0.0/24` parses, and its check on `10.0.0.5` reduces to
membership in one of the two CIDRs. -/
theorem tunnel_acl_correct_witness :
    167772165 < 2 ^ 32 ∧
    ("10.0.0.1,10.0.0.0/24").data ≠ [] ∧
    (∀ e ∈ splitOnChar ',' ("10.0.0.1,10.0.0.0/24").data, validCIDRStr e = true) ∧
    ((∃ acl, ParseTunnelACL ("10.0.0.1,10.0.0.0/24").data = some (some acl) ∧
      (CheckAccess acl 167772165 = true ↔
        ∃ e ∈ splitOnChar ',' ("10.0.0.1,10.0.0.0/24").data,
          cidrContains e 167772165 = true)) ∧
    ParseTunnelACL [] = some none ∧ (∀ y, aclAllows none y = true)) :=
  ⟨by decide, by decide, by decide,
    tunnel_acl_correct ("10.0.0.1,10.0.0.0/24").data 167772165
      (by decide) (by decide) (by decide)⟩

end ACL
